import Mathlib

/-!
Verification of the tab-dedup-manager browser extension's background logic
(the class-based generation: `TabGroupingService`, `ChromeTabAdapter`,
`TabGroupingController`).

The TypeScript source is shallowly embedded: pure functions become Lean
functions over explicit data; the Chrome tab API is modelled by a `ChromeCall`
trace plus an environment that decides the outcome of each (already retried)
external call; JavaScript truthiness is modelled explicitly (`undefined`/absent
values are `Option.none`, the number `0` and the empty string are falsy).

Host APIs that the source delegates to are modelled:
* `new URL(u).hostname` is modelled by `parseHostname` (scheme `://` host
  up to the first delimiter), matching the WHATWG parser on the ordinary
  http(s) URLs the extension handles;
* `String.prototype.localeCompare` is modelled as case-sensitive code-point
  comparison (`localeCompare`), exact for the all-lowercase hostnames the
  code sorts by;
* `Array.prototype.sort` (stable) is modelled by `List.insertionSort`, which
  is stable for the comparators in use.
-/

/-- A JavaScript value, as far as the persisted-rule validation logic needs:
`null`, `undefined`, primitives and plain objects (ordered field lists). -/
inductive JSVal where
  | null
  | undefined
  | bool (b : Bool)
  | num (n : Int)
  | str (s : String)
  | obj (fields : List (String × JSVal))
deriving Repr

/-- The JavaScript `typeof` operator (note `typeof null = "object"`). -/
def typeofJS : JSVal → String
  | .null => "object"
  | .undefined => "undefined"
  | .bool _ => "boolean"
  | .num _ => "number"
  | .str _ => "string"
  | .obj _ => "object"

/-- JavaScript loose equality with `null` (`x == null`): true exactly for
`null` and `undefined`. -/
def jsLooseNull : JSVal → Bool
  | .null => true
  | .undefined => true
  | _ => false

/-- JavaScript truthiness of a value. -/
def jsTruthy : JSVal → Bool
  | .null => false
  | .undefined => false
  | .bool b => b
  | .num n => decide (n ≠ 0)
  | .str s => decide (s ≠ "")
  | .obj _ => true

/-- Property access `v.k`: throws a `TypeError` on `null`/`undefined`,
returns `undefined` for a missing field or a primitive receiver. -/
def jsField : JSVal → String → Except String JSVal
  | .null, _ => .error "TypeError"
  | .undefined, _ => .error "TypeError"
  | .obj fields, k =>
    match fields.find? (fun p => p.1 = k) with
    | some p => .ok p.2
    | none => .ok .undefined
  | _, _ => .ok .undefined

/-- String conversion used when a non-string value ends up as an object key
or a group title (only the `str` case is reachable for well-formed rules). -/
def jsToStr : JSVal → String
  | .null => "null"
  | .undefined => "undefined"
  | .bool b => if b then "true" else "false"
  | .num n => toString n
  | .str s => s
  | .obj _ => "[object Object]"

/-- A browser tab, restricted to the fields the background logic reads.
`none` models an absent (`undefined`) field; Chrome uses `groupId = -1`
for "not in a group". -/
structure Tab where
  id : Option Nat
  url : Option String
  groupId : Option Int
  index : Nat
  windowId : Option Nat
deriving Repr, DecidableEq

/-- The URL of a tab when it is truthy (`tab.url` passes an `if (tab.url)`
test): present and non-empty. -/
def truthyUrl (t : Tab) : Option String :=
  match t.url with
  | some u => if u = "" then none else some u
  | none => none

/-- The id of a tab when it is truthy (`if (tab.id)`): present and non-zero. -/
def truthyId (t : Tab) : Option Nat :=
  match t.id with
  | some i => if i = 0 then none else some i
  | none => none

/-- Whether a tab "has a URL" in the JavaScript sense used throughout the
source (`tab.url` truthy: present and non-empty). -/
def hasUrl (t : Tab) : Bool :=
  (truthyUrl t).isSome

/-- `isGrouped(tab)`: `tab.groupId != null && tab.groupId !== -1`. -/
def isGrouped (t : Tab) : Bool :=
  match t.groupId with
  | some g => decide (g ≠ -1)
  | none => false

/-- `extractTabIds(tabs)`: keep every defined id
(`tabs.map(t => t.id).filter(isDefined)` — note: no truthiness test here,
an id of `0` is kept). -/
def extractTabIds (tabs : List Tab) : List Nat :=
  tabs.filterMap (fun t => t.id)

/-- Splits a character list at the first occurrence of `://`, returning the
scheme part and the remainder. -/
def splitSchemeAux : List Char → Option (List Char × List Char)
  | [] => none
  | ':' :: '/' :: '/' :: rest => some ([], rest)
  | c :: rest =>
    match splitSchemeAux rest with
    | some (scheme, after) => some (c :: scheme, after)
    | none => none

/-- Models `new URL(u).hostname`: a non-empty scheme before `://`, then the
host up to the first `/`, `:`, `?` or `#`; `none` models the parser throwing. -/
def parseHostname (u : String) : Option String :=
  match splitSchemeAux u.data with
  | some (scheme, after) =>
    if scheme.isEmpty then none
    else
      let host := after.takeWhile (fun c => c ≠ '/' ∧ c ≠ ':' ∧ c ≠ '?' ∧ c ≠ '#')
      if host.isEmpty then none else some (String.mk host)
  | none => none

/-- `getDomain(url)`: hostname of the URL, or the sentinel `"other"` when the
URL is absent, empty (falsy) or unparsable. -/
def getDomain (url : Option String) : String :=
  match url with
  | none => "other"
  | some u =>
    if u = "" then "other"
    else
      match parseHostname u with
      | some h => h
      | none => "other"

/-- Models `a.localeCompare(b)` as case-sensitive code-point comparison
(lexicographic on the character lists). -/
def localeCompare (a b : String) : Int :=
  if a.data < b.data then -1 else if a = b then 0 else 1

/-! ### `ChromeTabAdapter.deduplicateAllTabs` — the pure scan

```
tabs.forEach((tab) => {
  if (tab.url && !seen.has(tab.url)) {
    seen.add(tab.url);
    uniqueTabs.push(tab);
  } else if (tab.id) {
    duplicateIds.push(asTabId(tab.id)!);
  }
});
```
The duplicate ids are then closed in batches; the survivors are returned. -/

/-- The first-seen-wins scan of `deduplicateAllTabs`, carrying the set of
seen URLs; returns (survivors, ids queued for closure). -/
def dedupScan (seen : List String) : List Tab → List Tab × List Nat
  | [] => ([], [])
  | t :: ts =>
    match truthyUrl t with
    | some u =>
      if u ∈ seen then
        let (uq, dp) := dedupScan seen ts
        match truthyId t with
        | some i => (uq, i :: dp)
        | none => (uq, dp)
      else
        let (uq, dp) := dedupScan (u :: seen) ts
        (t :: uq, dp)
    | none =>
      let (uq, dp) := dedupScan seen ts
      match truthyId t with
      | some i => (uq, i :: dp)
      | none => (uq, dp)

/-- `deduplicateAllTabs(tabs)`, pure content: the survivors it returns and the
ids it asks `chrome.tabs.remove` to close. -/
def deduplicateAllTabs (tabs : List Tab) : List Tab × List Nat :=
  dedupScan [] tabs

/-- The truthy URLs of a list of tabs, in order. -/
def seenUrls (tabs : List Tab) : List String :=
  tabs.filterMap truthyUrl

/-- Specification-side predicate: a tab is kept exactly when it has a (truthy)
URL that no earlier tab had. -/
def keepSpec (earlier : List String) (t : Tab) : Bool :=
  match truthyUrl t with
  | some u => decide (u ∉ earlier)
  | none => false

/-- Specification-side scan, phrased over the list of earlier tabs rather than
an accumulated seen-set: a tab survives iff `keepSpec` holds of the URLs of
all earlier tabs; otherwise its truthy id (if any) joins the close list. -/
def dedupSpecFrom (earlier : List Tab) : List Tab → List Tab × List Nat
  | [] => ([], [])
  | t :: ts =>
    let (uq, dp) := dedupSpecFrom (earlier ++ [t]) ts
    if keepSpec (seenUrls earlier) t then (t :: uq, dp)
    else
      match truthyId t with
      | some i => (uq, i :: dp)
      | none => (uq, dp)

theorem seenUrls_append (a b : List Tab) :
    seenUrls (a ++ b) = seenUrls a ++ seenUrls b := by
  simp [seenUrls, List.filterMap_append]

theorem seenUrls_singleton (t : Tab) : seenUrls [t] = (truthyUrl t).toList := by
  cases h : truthyUrl t <;> simp [seenUrls, h]

theorem dedupScan_eq_spec (ts : List Tab) (seen : List String)
    (earlier : List Tab) (hmem : ∀ u, u ∈ seen ↔ u ∈ seenUrls earlier) :
    dedupScan seen ts = dedupSpecFrom earlier ts := by
  induction ts generalizing seen earlier with
  | nil => simp [dedupScan, dedupSpecFrom]
  | cons t ts ih =>
    have hseen : seenUrls (earlier ++ [t]) = seenUrls earlier ++ seenUrls [t] :=
      seenUrls_append earlier [t]
    cases hu : truthyUrl t with
    | none =>
      have hone : seenUrls [t] = [] := by rw [seenUrls_singleton, hu]; rfl
      have hset : ∀ u, u ∈ seen ↔ u ∈ seenUrls (earlier ++ [t]) := by
        intro u
        rw [hseen, hone, List.append_nil]
        exact hmem u
      have := ih seen (earlier ++ [t]) hset
      simp [dedupScan, dedupSpecFrom, hu, keepSpec, this]
    | some u =>
      have hone : seenUrls [t] = [u] := by rw [seenUrls_singleton, hu]; rfl
      by_cases hin : u ∈ seen
      · have hin' : u ∈ seenUrls earlier := (hmem u).1 hin
        have hset : ∀ v, v ∈ seen ↔ v ∈ seenUrls (earlier ++ [t]) := by
          intro v
          rw [hseen, hone, List.mem_append, List.mem_singleton]
          constructor
          · intro hv; exact Or.inl ((hmem v).1 hv)
          · rintro (hv | rfl)
            · exact (hmem v).2 hv
            · exact hin
        have := ih seen (earlier ++ [t]) hset
        have hks : keepSpec (seenUrls earlier) t = false := by
          simp [keepSpec, hu, hin']
        simp [dedupScan, dedupSpecFrom, hu, hin, hks, this]
      · have hin' : u ∉ seenUrls earlier := fun h => hin ((hmem u).2 h)
        have hset : ∀ v, v ∈ u :: seen ↔ v ∈ seenUrls (earlier ++ [t]) := by
          intro v
          rw [hseen, hone, List.mem_append, List.mem_singleton, List.mem_cons]
          constructor
          · rintro (rfl | hv)
            · exact Or.inr rfl
            · exact Or.inl ((hmem v).1 hv)
          · rintro (hv | rfl)
            · exact Or.inr ((hmem v).2 hv)
            · exact Or.inl rfl
        have := ih (u :: seen) (earlier ++ [t]) hset
        have hks : keepSpec (seenUrls earlier) t = true := by
          simp [keepSpec, hu, hin']
        simp [dedupScan, dedupSpecFrom, hu, hin, hks, this]

/-- C1 counterexample input: a tab with an id but no URL at all. -/
def urlLessTab : Tab :=
  { id := some 7, url := none, groupId := none, index := 0, windowId := some 1 }

/-- **C1, counterexample.** The claim says a tab lacking a URL is never put in
the list of tabs to close; but `deduplicateAllTabs` on the single URL-less tab
`urlLessTab` queues its id `7` for closure (and keeps no survivor). -/
theorem deduplicateAllTabs_closes_urlless_tab :
    urlLessTab.url = none ∧ deduplicateAllTabs [urlLessTab] = ([], [7]) := by
  constructor
  · rfl
  · rfl

/-- **C1 (amended).** `deduplicateAllTabs` keeps exactly the first occurrence
of each (truthy) URL in first-seen order as the survivors, and queues for
closure precisely the truthy ids of all other tabs — every later tab whose URL
was already seen, and every tab lacking a truthy URL: the scan coincides with
the specification scan `dedupSpecFrom []`, in which a tab survives iff its URL
is absent from the URLs of all earlier tabs both lists in input order. -/
theorem deduplicateAllTabs_first_seen_wins (tabs : List Tab) :
    deduplicateAllTabs tabs = dedupSpecFrom [] tabs := by
  apply dedupScan_eq_spec
  intro u
  simp [seenUrls]

/-- Helper for C10: everything the scan's survivor list satisfies, generalized
over the seen accumulator. -/
theorem dedupScan_survivors (ts : List Tab) (seen : List String) :
    (dedupScan seen ts).1.Sublist ts ∧
      (∀ t ∈ (dedupScan seen ts).1, hasUrl t = true) ∧
      (∀ t ∈ (dedupScan seen ts).1, ∀ u, truthyUrl t = some u → u ∉ seen) ∧
      List.Pairwise (fun a b => truthyUrl a ≠ truthyUrl b) (dedupScan seen ts).1 := by
  induction ts generalizing seen with
  | nil =>
    simp [dedupScan]
  | cons t ts ih =>
    cases hu : truthyUrl t with
    | none =>
      have h := ih seen
      cases hid : truthyId t with
      | some i =>
        refine ⟨?_, ?_, ?_, ?_⟩ <;>
          simp only [dedupScan, hu, hid] <;>
          first
            | exact (h.1).cons t
            | exact h.2.1
            | exact h.2.2.1
            | exact h.2.2.2
      | none =>
        refine ⟨?_, ?_, ?_, ?_⟩ <;>
          simp only [dedupScan, hu, hid] <;>
          first
            | exact (h.1).cons t
            | exact h.2.1
            | exact h.2.2.1
            | exact h.2.2.2
    | some u =>
      by_cases hin : u ∈ seen
      · have h := ih seen
        cases hid : truthyId t with
        | some i =>
          refine ⟨?_, ?_, ?_, ?_⟩ <;>
            simp only [dedupScan, hu, if_pos hin, hid] <;>
            first
              | exact (h.1).cons t
              | exact h.2.1
              | exact h.2.2.1
              | exact h.2.2.2
        | none =>
          refine ⟨?_, ?_, ?_, ?_⟩ <;>
            simp only [dedupScan, hu, if_pos hin, hid] <;>
            first
              | exact (h.1).cons t
              | exact h.2.1
              | exact h.2.2.1
              | exact h.2.2.2
      · have h := ih (u :: seen)
        refine ⟨?_, ?_, ?_, ?_⟩ <;> simp only [dedupScan, hu, if_neg hin]
        · exact (h.1).cons₂ t
        · intro x hx
          rcases List.mem_cons.1 hx with hx | hx
          · subst hx
            simp [hasUrl, hu]
          · exact h.2.1 x hx
        · intro x hx v hv
          rcases List.mem_cons.1 hx with hx | hx
          · subst hx
            rw [hu] at hv
            cases hv
            exact hin
          · intro hvseen
            exact h.2.2.1 x hx v hv (List.mem_cons_of_mem u hvseen)
        · refine List.pairwise_cons.2 ⟨?_, h.2.2.2⟩
          intro x hx heq
          cases hvx : truthyUrl x with
          | none => rw [hu, hvx] at heq; cases heq
          | some v =>
            rw [hu, hvx] at heq
            injection heq with h2
            subst h2
            exact h.2.2.1 x hx u hvx (List.mem_cons_self u seen)

/-- **C10 (confirmed).** The survivor list of `deduplicateAllTabs` is a
subsequence of the input (relative order preserved), every survivor has a
(truthy) URL, and the survivors' URLs are pairwise distinct. -/
theorem deduplicateAllTabs_survivor_invariants (tabs : List Tab) :
    (deduplicateAllTabs tabs).1.Sublist tabs ∧
      (∀ t ∈ (deduplicateAllTabs tabs).1, hasUrl t = true) ∧
      List.Pairwise (fun a b => truthyUrl a ≠ truthyUrl b)
        (deduplicateAllTabs tabs).1 := by
  have h := dedupScan_survivors tabs []
  exact ⟨h.1, h.2.1, h.2.2.2⟩

/-! ### `validateRule` — persisted-rule validation

```
function validateRule(rule: any): rule is Rule {
  return (
    (typeof rule === "object" &&
      rule != null &&
      typeof rule.domain === "string" &&
      rule.autoDelete == null) ||
    (typeof rule.autoDelete === "boolean" && rule.skipProcess == null) ||
    (typeof rule.skipProcess === "boolean" &&
      (rule.groupName == null || typeof rule.groupName === "string"))
  );
}
```
The expression is a disjunction of three clauses evaluated left to right with
JavaScript short-circuiting; property accesses in the second and third clause
are not guarded by the object test of the first, so they can throw. -/

/-- `validateRule(rule)`, with a thrown `TypeError` modelled as `Except.error`. -/
def validateRule (rule : JSVal) : Except String Bool := do
  let c1 : Bool ←
    if typeofJS rule = "object" then
      if jsLooseNull rule then pure false
      else do
        let d ← jsField rule "domain"
        if typeofJS d = "string" then do
          let ad ← jsField rule "autoDelete"
          pure (jsLooseNull ad)
        else
          pure false
    else
      pure false
  if c1 then return true
  let ad ← jsField rule "autoDelete"
  let c2 : Bool ←
    if typeofJS ad = "boolean" then do
      let sp ← jsField rule "skipProcess"
      pure (jsLooseNull sp)
    else
      pure false
  if c2 then return true
  let sp ← jsField rule "skipProcess"
  if typeofJS sp = "boolean" then do
    let gn ← jsField rule "groupName"
    pure (jsLooseNull gn || typeofJS gn = "string")
  else
    pure false

/-- `rules.filter(validateRule)` as executed by `TabGroupingController.execute`:
`Array.prototype.filter` propagates an exception thrown by the callback. -/
def filterRulesJS : List JSVal → Except String (List JSVal)
  | [] => .ok []
  | r :: rs => do
    let b ← validateRule r
    let rest ← filterRulesJS rs
    if b then return r :: rest else return rest

/-- A persisted rule value with an `autoDelete` flag but no `domain` at all. -/
def domainlessRule : JSVal :=
  .obj [("autoDelete", .bool true)]

/-- **C3 (code bug).** The claim (and the spec) say rule validation itself
never throws and that every accepted rule has a string `domain`; because the
`&&`/`||` grouping in `validateRule` drops the object guard from the second
and third clause, `validateRule(null)` throws a `TypeError` (aborting the
whole `rules.filter(validateRule)` configuration load), and the domain-less
object `{ autoDelete: true }` is accepted even though its `domain` is
`undefined`, contradicting the function's own `rule is Rule` type-guard
contract. -/
theorem validateRule_throws_and_accepts_malformed :
    validateRule JSVal.null = .error "TypeError" ∧
      validateRule JSVal.undefined = .error "TypeError" ∧
      filterRulesJS [JSVal.null] = .error "TypeError" ∧
      validateRule domainlessRule = .ok true ∧
      jsField domainlessRule "domain" = .ok JSVal.undefined := by
  refine ⟨rfl, rfl, rfl, rfl, rfl⟩

/-! ### `TabGroupingService.countDuplicates`

```
countDuplicates(tabs: Tab[]): number {
  const urlsByDomain = new Map<Domain, Set<string>>();
  let duplicateCount = 0;
  tabs.forEach((tab) => {
    const domain = this.getDomain(tab.url);
    if (!urlsByDomain.has(domain)) { urlsByDomain.set(domain, new Set()); }
    const urls = urlsByDomain.get(domain)!;
    if (tab.url && urls.has(tab.url)) { duplicateCount++; }
    else if (tab.url) { urls.add(tab.url); }
  });
  return duplicateCount;
}
```
The per-domain map is modelled as an association list of (domain, URL list);
only membership in the URL sets matters. -/

/-- The URL set stored for a domain (empty when the domain has no entry). -/
def lookupUrls (m : List (String × List String)) (d : String) : List String :=
  match m.find? (fun p => p.1 = d) with
  | some p => p.2
  | none => []

/-- `urlsByDomain.set(domain, new Set())` when the domain is missing. -/
def ensureEntry (m : List (String × List String)) (d : String) :
    List (String × List String) :=
  if (m.find? (fun p => p.1 = d)).isSome then m else m ++ [(d, [])]

/-- `urls.add(url)` on the set stored for `d`. -/
def addUrl (m : List (String × List String)) (d u : String) :
    List (String × List String) :=
  m.map (fun p => if p.1 = d then (p.1, u :: p.2) else p)

/-- The counting loop of `countDuplicates`, carrying the per-domain URL map. -/
def countDupGo (m : List (String × List String)) : List Tab → Nat
  | [] => 0
  | t :: ts =>
    let d := getDomain t.url
    let m0 := ensureEntry m d
    match truthyUrl t with
    | some u =>
      if u ∈ lookupUrls m0 d then 1 + countDupGo m0 ts
      else countDupGo (addUrl m0 d u) ts
    | none => countDupGo m0 ts

/-- `countDuplicates(tabs)`. -/
def countDuplicates (tabs : List Tab) : Nat :=
  countDupGo [] tabs

/-- The same count computed with a single global seen-URL set. -/
def countDupSimple (seen : List String) : List Tab → Nat
  | [] => 0
  | t :: ts =>
    match truthyUrl t with
    | some u =>
      if u ∈ seen then 1 + countDupSimple seen ts
      else countDupSimple (u :: seen) ts
    | none => countDupSimple seen ts

/-- The number of tabs contributing a URL not yet seen. -/
def newDistinct (seen : List String) : List Tab → Nat
  | [] => 0
  | t :: ts =>
    match truthyUrl t with
    | some u =>
      if u ∈ seen then newDistinct seen ts
      else 1 + newDistinct (u :: seen) ts
    | none => newDistinct seen ts

theorem lookupUrls_cons (p : String × List String) (m : List (String × List String))
    (d : String) :
    lookupUrls (p :: m) d = if p.1 = d then p.2 else lookupUrls m d := by
  by_cases h : p.1 = d
  · rw [if_pos h]
    unfold lookupUrls
    rw [List.find?_cons_of_pos _ (by simpa using h)]
  · rw [if_neg h]
    unfold lookupUrls
    rw [List.find?_cons_of_neg _ (by simpa using h)]

theorem findKey_isSome_cons (p : String × List String)
    (m : List (String × List String)) (d : String) :
    ((p :: m).find? (fun q => q.1 = d)).isSome
      = if p.1 = d then true else (m.find? (fun q => q.1 = d)).isSome := by
  by_cases h : p.1 = d
  · rw [if_pos h, List.find?_cons_of_pos _ (by simpa using h)]
    rfl
  · rw [if_neg h, List.find?_cons_of_neg _ (by simpa using h)]

theorem addUrl_cons (p : String × List String) (m : List (String × List String))
    (d u : String) :
    addUrl (p :: m) d u
      = (if p.1 = d then (p.1, u :: p.2) else p) :: addUrl m d u := by
  simp [addUrl]

theorem lookupUrls_ensureEntry (m : List (String × List String)) (d d' : String) :
    lookupUrls (ensureEntry m d) d' = lookupUrls m d' := by
  unfold ensureEntry
  by_cases h : (m.find? (fun p => p.1 = d)).isSome
  · rw [if_pos h]
  · rw [if_neg h]
    induction m with
    | nil =>
      by_cases hd : d = d'
      · subst hd
        simp [lookupUrls, List.find?]
      · have hdec : (decide (d = d')) = false := by simp [hd]
        simp [lookupUrls, List.find?, hdec]
    | cons p m ih =>
      have hns : ¬ (m.find? (fun q => q.1 = d)).isSome := by
        intro hc
        apply h
        rw [findKey_isSome_cons]
        by_cases hp : p.1 = d
        · rw [if_pos hp]
        · rw [if_neg hp]; exact hc
      have hcons : (p :: m) ++ [(d, [])] = p :: (m ++ [(d, [])]) := rfl
      rw [hcons, lookupUrls_cons, lookupUrls_cons]
      by_cases hp : p.1 = d'
      · rw [if_pos hp, if_pos hp]
      · rw [if_neg hp, if_neg hp]
        exact ih hns

theorem ensureEntry_find_isSome (m : List (String × List String)) (d : String) :
    ((ensureEntry m d).find? (fun p => p.1 = d)).isSome = true := by
  unfold ensureEntry
  by_cases h : (m.find? (fun p => p.1 = d)).isSome
  · rw [if_pos h]; exact h
  · rw [if_neg h]
    induction m with
    | nil => simp [List.find?]
    | cons p m ih =>
      have hns : ¬ (m.find? (fun q => q.1 = d)).isSome := by
        intro hc
        apply h
        rw [findKey_isSome_cons]
        by_cases hp : p.1 = d
        · rw [if_pos hp]
        · rw [if_neg hp]; exact hc
      have hp : p.1 ≠ d := by
        intro hc
        apply h
        rw [findKey_isSome_cons, if_pos hc]
      have hcons : (p :: m) ++ [(d, [])] = p :: (m ++ [(d, [])]) := rfl
      rw [hcons, findKey_isSome_cons, if_neg hp]
      exact ih hns

theorem lookupUrls_addUrl (m : List (String × List String)) (d u d' : String) :
    lookupUrls (addUrl m d u) d' =
      if d' = d ∧ (m.find? (fun p => p.1 = d')).isSome
      then u :: lookupUrls m d' else lookupUrls m d' := by
  induction m with
  | nil => simp [addUrl, lookupUrls, List.find?]
  | cons p m ih =>
    rw [addUrl_cons]
    have hkey : (if p.1 = d then (p.1, u :: p.2) else p).1 = p.1 := by
      by_cases h : p.1 = d <;> simp [h]
    rw [lookupUrls_cons, hkey, lookupUrls_cons, findKey_isSome_cons]
    by_cases hp : p.1 = d'
    · by_cases hpd : p.1 = d
      · have hdd : d' = d := by rw [← hp, hpd]
        simp [hp, hpd, hdd]
      · have hdd : ¬ d' = d := fun hc => hpd (by rw [hp, hc])
        simp [hp, hpd, hdd]
    · simp only [if_neg hp]
      exact ih

theorem truthyUrl_eq_some {t : Tab} {u : String} (h : truthyUrl t = some u) :
    t.url = some u := by
  obtain ⟨i, url, g, ix, w⟩ := t
  cases url with
  | none => simp [truthyUrl] at h
  | some v =>
    simp only [truthyUrl] at h
    by_cases hv : v = ""
    · simp [hv] at h
    · rw [if_neg hv] at h
      injection h with h2
      show some v = some u
      rw [h2]

theorem countDupGo_eq_simple (ts : List Tab) (m : List (String × List String))
    (seen : List String)
    (hinv : ∀ d u, u ∈ lookupUrls m d ↔ u ∈ seen ∧ getDomain (some u) = d) :
    countDupGo m ts = countDupSimple seen ts := by
  induction ts generalizing m seen with
  | nil => simp [countDupGo, countDupSimple]
  | cons t ts ih =>
    cases hu : truthyUrl t with
    | none =>
      have hinv0 : ∀ d u, u ∈ lookupUrls (ensureEntry m (getDomain t.url)) d ↔
          u ∈ seen ∧ getDomain (some u) = d := by
        intro d u
        rw [lookupUrls_ensureEntry]
        exact hinv d u
      simp only [countDupGo, countDupSimple, hu]
      exact ih _ _ hinv0
    | some u =>
      have hurl : t.url = some u := truthyUrl_eq_some hu
      have hdom : getDomain (some u) = getDomain t.url := by rw [hurl]
      have hinv0 : ∀ d v, v ∈ lookupUrls (ensureEntry m (getDomain t.url)) d ↔
          v ∈ seen ∧ getDomain (some v) = d := by
        intro d v
        rw [lookupUrls_ensureEntry]
        exact hinv d v
      by_cases hin : u ∈ seen
      · have hmem : u ∈ lookupUrls (ensureEntry m (getDomain t.url)) (getDomain t.url) := by
          rw [hinv0]
          exact ⟨hin, hdom⟩
        simp only [countDupGo, countDupSimple, hu, if_pos hmem, if_pos hin]
        exact congrArg (1 + ·) (ih _ _ hinv0)
      · have hnotin : u ∉ lookupUrls (ensureEntry m (getDomain t.url)) (getDomain t.url) := by
          rw [hinv0]
          intro hc
          exact hin hc.1
        have hinv1 : ∀ d v,
            v ∈ lookupUrls (addUrl (ensureEntry m (getDomain t.url)) (getDomain t.url) u) d ↔
              v ∈ u :: seen ∧ getDomain (some v) = d := by
          intro d v
          rw [lookupUrls_addUrl]
          by_cases hd : d = getDomain t.url
          · have hsome : ((ensureEntry m (getDomain t.url)).find?
                (fun p => p.1 = d)).isSome := by
              rw [hd]
              exact ensureEntry_find_isSome m (getDomain t.url)
            rw [if_pos ⟨hd, hsome⟩, List.mem_cons]
            rw [hinv0 d v, List.mem_cons]
            constructor
            · rintro (rfl | hv)
              · refine ⟨Or.inl rfl, ?_⟩
                rw [hd]
                exact hdom
              · exact ⟨Or.inr hv.1, hv.2⟩
            · rintro ⟨hv1, hv2⟩
              rcases hv1 with rfl | hv1
              · exact Or.inl rfl
              · exact Or.inr ⟨hv1, hv2⟩
          · have hneg : ¬ (d = getDomain t.url ∧
                ((ensureEntry m (getDomain t.url)).find? (fun p => p.1 = d)).isSome) :=
              fun hc => hd hc.1
            rw [if_neg hneg, hinv0 d v, List.mem_cons]
            constructor
            · rintro ⟨hv1, hv2⟩
              exact ⟨Or.inr hv1, hv2⟩
            · rintro ⟨hv1, hv2⟩
              rcases hv1 with rfl | hv1
              · exact absurd (hv2.symm.trans hdom) hd
              · exact ⟨hv1, hv2⟩
        simp only [countDupGo, countDupSimple, hu, if_neg hnotin, if_neg hin]
        exact ih _ _ hinv1

theorem countDupSimple_add_newDistinct (ts : List Tab) (seen : List String) :
    countDupSimple seen ts + newDistinct seen ts
      = (ts.filter (fun t => hasUrl t)).length := by
  induction ts generalizing seen with
  | nil => simp [countDupSimple, newDistinct]
  | cons t ts ih =>
    cases hu : truthyUrl t with
    | none =>
      have hh : hasUrl t = false := by simp [hasUrl, hu]
      simp only [countDupSimple, newDistinct, hu, List.filter, hh]
      exact ih seen
    | some u =>
      have hh : hasUrl t = true := by simp [hasUrl, hu]
      by_cases hin : u ∈ seen
      · have := ih seen
        simp only [countDupSimple, newDistinct, hu, hin, if_pos, List.filter, hh,
          List.length_cons]
        omega
      · have := ih (u :: seen)
        simp only [countDupSimple, newDistinct, hu, hin, if_neg, if_false, List.filter,
          hh, List.length_cons]
        omega

theorem newDistinct_card (ts : List Tab) (seen : List String) :
    newDistinct seen ts = ((seenUrls ts).toFinset \ seen.toFinset).card := by
  induction ts generalizing seen with
  | nil => simp [newDistinct, seenUrls]
  | cons t ts ih =>
    cases hu : truthyUrl t with
    | none =>
      have hs : seenUrls (t :: ts) = seenUrls ts := by
        simp [seenUrls, List.filterMap, hu]
      simp only [newDistinct, hu, hs]
      exact ih seen
    | some u =>
      have hs : seenUrls (t :: ts) = u :: seenUrls ts := by
        simp [seenUrls, List.filterMap, hu]
      rw [hs]
      by_cases hin : u ∈ seen
      · have hmem : u ∈ seen.toFinset := List.mem_toFinset.2 hin
        simp only [newDistinct, hu, hin, if_pos, List.toFinset_cons,
          Finset.insert_sdiff_of_mem _ hmem]
        exact ih seen
      · have hmem : u ∉ seen.toFinset := fun h => hin (List.mem_toFinset.1 h)
        rw [List.toFinset_cons, Finset.insert_sdiff_of_not_mem _ hmem]
        have hins : ((u :: seen).toFinset : Finset String) = insert u seen.toFinset := by
          simp
        have herase : (seenUrls ts).toFinset \ (u :: seen).toFinset
            = ((seenUrls ts).toFinset \ seen.toFinset).erase u := by
          rw [hins, Finset.sdiff_insert]
        simp only [newDistinct, hu, hin, if_neg, if_false]
        rw [ih (u :: seen), herase]
        by_cases hua : u ∈ (seenUrls ts).toFinset \ seen.toFinset
        · have h1 : insert u ((seenUrls ts).toFinset \ seen.toFinset)
              = (seenUrls ts).toFinset \ seen.toFinset := Finset.insert_eq_self.2 hua
          rw [h1]
          have := Finset.card_erase_add_one hua
          omega
        · have h1 := Finset.card_insert_of_not_mem hua
          have h2 : ((seenUrls ts).toFinset \ seen.toFinset).erase u
              = (seenUrls ts).toFinset \ seen.toFinset := Finset.erase_eq_of_not_mem hua
          rw [h2]
          omega

/-- **C9 (confirmed).** `countDuplicates` equals the number of tabs with a
(truthy) URL minus the number of distinct URLs among them; a tab without a
URL never contributes, and the per-domain keying of the seen-URL sets does
not change the result (the right-hand side mentions no domain at all, because
a URL fully determines its domain). -/
theorem countDuplicates_eq_urls_minus_distinct (tabs : List Tab) :
    countDuplicates tabs
      = (tabs.filter (fun t => hasUrl t)).length - (seenUrls tabs).dedup.length ∧
      (seenUrls tabs).dedup.length ≤ (tabs.filter (fun t => hasUrl t)).length := by
  have h1 : countDuplicates tabs = countDupSimple [] tabs := by
    apply countDupGo_eq_simple
    intro d u
    simp [lookupUrls, List.find?]
  have h2 := countDupSimple_add_newDistinct tabs []
  have h3 := newDistinct_card tabs []
  have h4 : (([] : List String).toFinset : Finset String) = ∅ := rfl
  rw [h4, Finset.sdiff_empty] at h3
  rw [List.card_toFinset] at h3
  constructor
  · omega
  · omega

/-! ### Domain partitions and `TabGroupingService.buildGroupStates`

A `DomainMapEntry` is one partition of the domain map produced by
`buildDomainMap`: member tabs, a display name (the group key), and the set of
underlying domains folded into the key. `buildGroupStates` turns qualifying
partitions (≥2 raw members and ≥2 revalidated members) into `GroupState`s. -/

structure DomainMapEntry where
  tabs : List Tab
  displayName : String
  domains : List String
deriving Repr, DecidableEq

structure GroupState where
  domain : String
  tabIds : List Nat
  groupId : Option Int
  needsReposition : Bool
deriving Repr, DecidableEq

/-- `filterValidTabs(tabs, allowedDomains, tabCache)`: re-resolve each tab id
against the fresh cache and keep those whose current domain is still allowed. -/
def filterValidTabs (tabs : List Tab) (allowedDomains : List String)
    (tabCache : Nat → Option Tab) : List Tab :=
  ((extractTabIds tabs).filterMap tabCache).filter
    (fun t => allowedDomains.contains (getDomain t.url))

/-- The comparator of `validTabs.sort((a, b) => a.url && b.url ?
a.url.localeCompare(b.url) : 0)`: URLs compare by `localeCompare`, and any
pair with a falsy URL compares equal. -/
def urlCompare (a b : Tab) : Int :=
  match truthyUrl a, truthyUrl b with
  | some ua, some ub => localeCompare ua ub
  | _, _ => 0

/-- The relation `urlCompare a b ≤ 0` used to run the (stable) sort. -/
def urlLe (a b : Tab) : Prop := urlCompare a b ≤ 0

instance : DecidableRel urlLe := fun a b => by
  unfold urlLe
  infer_instance

/-- Stable sort of the valid tabs by URL (models `Array.prototype.sort`). -/
def sortTabsByUrl (tabs : List Tab) : List Tab :=
  List.insertionSort urlLe tabs

/-- The group id recorded for a partition:
`existingGroup?.groupId ? asGroupId(existingGroup.groupId) : null` — note the
truthiness test, a group id of `0` (or an absent tab/field) yields `null`. -/
def groupIdOf (existingGroup : Option Tab) : Option Int :=
  match existingGroup with
  | some t =>
    match t.groupId with
    | some g => if g = 0 then none else some g
    | none => none
  | none => none

/-- The body of the `buildGroupStates` loop for one partition: `none` models
`continue` (no `GroupState` is pushed for this partition). -/
def buildGroupStateEntry (tabCache : Nat → Option Tab) (entry : DomainMapEntry) :
    Option GroupState :=
  if entry.tabs.length < 2 then none
  else
    let validTabs := filterValidTabs entry.tabs entry.domains tabCache
    if validTabs.length < 2 then none
    else
      let sorted := sortTabsByUrl validTabs
      some
        { domain := entry.displayName
          tabIds := extractTabIds sorted
          groupId := groupIdOf (sorted.find? isGrouped)
          needsReposition := false }

/-- `buildGroupStates(domainMap, tabCache)`: iterate the partitions in order
(a JavaScript `Map` iterates in insertion order) and collect the produced
states. -/
def buildGroupStates (domainMap : List DomainMapEntry) (tabCache : Nat → Option Tab) :
    List GroupState :=
  domainMap.filterMap (buildGroupStateEntry tabCache)

/-- The pure content of `ChromeTabAdapter.ungroupSingleTabs`: the ids collected
into `singles` — for every partition with exactly one member tab whose id is
truthy, that is currently grouped and not part of the planned member set. -/
def singlesToUngroup (domainMap : List DomainMapEntry) (allGroupedTabIds : List Nat) :
    List Nat :=
  domainMap.filterMap (fun e =>
    match e.tabs with
    | [t] =>
      match truthyId t with
      | some i => if isGrouped t ∧ i ∉ allGroupedTabIds then some i else none
      | none => none
    | _ => none)

/-- **C2 (amended).** A partition with exactly one *valid* (revalidated)
member never produces a `GroupState`; and the singles-cleanup pass collects
(the id of) the member of every partition with exactly one *raw* member tab
that is currently grouped, has a truthy id and is not in the plan's member
set. (The cleanup keys on raw member count, not on valid member count: a
partition with several raw members but a single valid one is skipped by it —
see the counterexample.) -/
theorem buildGroupStates_single_member (domainMap : List DomainMapEntry)
    (tabCache : Nat → Option Tab) (planned : List Nat) :
    (∀ e ∈ domainMap, (filterValidTabs e.tabs e.domains tabCache).length = 1 →
      buildGroupStateEntry tabCache e = none) ∧
    (∀ e ∈ domainMap, ∀ t i, e.tabs = [t] → truthyId t = some i →
      isGrouped t = true → i ∉ planned → i ∈ singlesToUngroup domainMap planned) := by
  constructor
  · intro e _ hlen
    unfold buildGroupStateEntry
    by_cases h2 : e.tabs.length < 2
    · rw [if_pos h2]
    · rw [if_neg h2]
      have : (filterValidTabs e.tabs e.domains tabCache).length < 2 := by
        rw [hlen]; omega
      rw [if_pos this]
  · intro e he t i htabs hid hgrp hplan
    refine List.mem_filterMap.2 ⟨e, he, ?_⟩
    rw [htabs]
    simp only [singlesToUngroup, hid]
    rw [if_pos ⟨hgrp, hplan⟩]

/-- C2 counterexample data: a partition holding two raw tabs of which only
`tabA` revalidates; `tabA` is grouped (group 5) and in no plan. -/
def tabA : Tab :=
  { id := some 1, url := some "https://example.com/a", groupId := some 5,
    index := 0, windowId := some 1 }

def tabB : Tab :=
  { id := some 2, url := some "https://example.com/b", groupId := some (-1),
    index := 1, windowId := some 1 }

def staleEntry : DomainMapEntry :=
  { tabs := [tabA, tabB], displayName := "example.com",
    domains := ["example.com"] }

def staleCache : Nat → Option Tab := fun i => if i = 1 then some tabA else none

/-- **C2, counterexample.** The partition `staleEntry` has exactly one valid
member (`tabA`, grouped, id 1, not in the empty plan), no `GroupState` is
produced — yet the singles-cleanup pass collects nothing, because it only
looks at partitions with exactly one *raw* tab: the claim's "exactly 1 valid
member" condition is refuted. -/
theorem singles_cleanup_misses_stale_partition :
    (filterValidTabs staleEntry.tabs staleEntry.domains staleCache).length = 1 ∧
      buildGroupStates [staleEntry] staleCache = [] ∧
      isGrouped tabA = true ∧
      truthyId tabA = some 1 ∧
      (1 : Nat) ∉ ([] : List Nat) ∧
      singlesToUngroup [staleEntry] [] = [] := by
  refine ⟨by decide, by decide, by decide, by decide, by decide, by decide⟩

/-- C2 witness data: a partition with exactly one raw (and valid) member that
is grouped. -/
def loneTab : Tab :=
  { id := some 3, url := some "https://solo.org/x", groupId := some 7,
    index := 4, windowId := some 1 }

def loneEntry : DomainMapEntry :=
  { tabs := [loneTab], displayName := "solo.org", domains := ["solo.org"] }

def loneCache : Nat → Option Tab := fun i => if i = 3 then some loneTab else none

/-- Witness for C2: on `loneEntry` the amended theorem yields both conclusions
at a concrete input. -/
theorem buildGroupStates_single_member_witness :
    buildGroupStateEntry loneCache loneEntry = none ∧
      3 ∈ singlesToUngroup [loneEntry] [] := by
  have h := buildGroupStates_single_member [loneEntry] loneCache []
  refine ⟨h.1 loneEntry (by simp) (by decide), ?_⟩
  exact h.2 loneEntry (by simp) loneTab 3 rfl (by decide) (by decide) (by simp)

/-! ### `TabGroupingService.calculateRepositionNeeds`

```
calculateRepositionNeeds(groupStates, tabIndexMap) {
  const sorted = [...groupStates].sort((a, b) => a.domain.localeCompare(b.domain));
  let expectedIndex = 0;
  return sorted.map((state) => {
    if (state.tabIds.length === 0) { return state; }
    const currentIndices = state.tabIds.map((id) => tabIndexMap.get(id)).filter(isDefined);
    const currentFirstIndex =
      currentIndices.length > 0 ? Math.min(...currentIndices) : expectedIndex;
    const needsReposition = currentFirstIndex !== expectedIndex;
    expectedIndex += state.tabIds.length;
    return { ...state, needsReposition };
  });
}
``` -/

/-- The ordering on `GroupState`s used by the sort: display-name
`localeCompare` at most zero. -/
def domLe (a b : GroupState) : Prop :=
  localeCompare a.domain b.domain ≤ 0

instance : DecidableRel domLe := fun a b => by
  unfold domLe
  infer_instance

theorem localeCompare_le_zero (a b : String) :
    localeCompare a b ≤ 0 ↔ a.data ≤ b.data := by
  unfold localeCompare
  by_cases hlt : a.data < b.data
  · simp only [if_pos hlt]
    constructor
    · intro _; exact le_of_lt hlt
    · intro _; omega
  · by_cases heq : a = b
    · simp only [if_neg hlt, if_pos heq]
      constructor
      · intro _
        exact le_of_eq (by rw [heq])
      · intro _; omega
    · simp only [if_neg hlt, if_neg heq]
      constructor
      · intro h; omega
      · intro h
        have hne : a.data ≠ b.data := fun hd => heq (String.ext hd)
        exact absurd (lt_of_le_of_ne h hne) hlt

instance : IsTotal GroupState domLe := by
  constructor
  intro a b
  unfold domLe
  rw [localeCompare_le_zero, localeCompare_le_zero]
  exact le_total a.domain.data b.domain.data

instance : IsTrans GroupState domLe := by
  constructor
  intro a b c hab hbc
  unfold domLe at hab hbc ⊢
  rw [localeCompare_le_zero] at hab hbc ⊢
  exact le_trans hab hbc

/-- The stable sort `[...groupStates].sort(byDomain)`. -/
def sortByDomain (groupStates : List GroupState) : List GroupState :=
  List.insertionSort domLe groupStates

/-- `Math.min(...l)` guarded by `l.length > 0` (else the given default). -/
def minNat (l : List Nat) (dflt : Nat) : Nat :=
  match l.min? with
  | some m => m
  | none => dflt

/-- The annotation loop of `calculateRepositionNeeds`, carrying the running
expected index. -/
def calcGo (tabIndexMap : Nat → Option Nat) (expected : Nat) :
    List GroupState → List GroupState
  | [] => []
  | s :: rest =>
    if s.tabIds.length = 0 then s :: calcGo tabIndexMap expected rest
    else
      let currentFirst := minNat (s.tabIds.filterMap tabIndexMap) expected
      { s with needsReposition := decide (currentFirst ≠ expected) }
        :: calcGo tabIndexMap (expected + s.tabIds.length) rest

/-- `calculateRepositionNeeds(groupStates, tabIndexMap)`. -/
def calculateRepositionNeeds (groupStates : List GroupState)
    (tabIndexMap : Nat → Option Nat) : List GroupState :=
  calcGo tabIndexMap 0 (sortByDomain groupStates)

/-- The expected running start index of a state: the sum of the member counts
of all preceding (sorted) states. -/
def expectedStart (pre : List GroupState) : Nat :=
  (pre.map (fun s => s.tabIds.length)).sum

/-- Specification-side annotation over sorted states, phrased (as the claim
is) with the expected index of each state given as the sum of the member
counts of the states preceding it: a state with members is flagged exactly
when the minimum current index among its resolvable members (or the expected
index if none resolve) differs from the expected index; a state with no
members is returned unchanged. -/
def annotateFrom (tabIndexMap : Nat → Option Nat) (pre : List GroupState) :
    List GroupState → List GroupState
  | [] => []
  | s :: rest =>
    (if s.tabIds.length = 0 then s
     else
       { s with needsReposition :=
          decide (minNat (s.tabIds.filterMap tabIndexMap) (expectedStart pre)
            ≠ expectedStart pre) })
      :: annotateFrom tabIndexMap (pre ++ [s]) rest

theorem expectedStart_append_one (pre : List GroupState) (s : GroupState) :
    expectedStart (pre ++ [s]) = expectedStart pre + s.tabIds.length := by
  simp [expectedStart]

theorem calcGo_eq_annotateFrom (tabIndexMap : Nat → Option Nat)
    (l : List GroupState) (pre : List GroupState) :
    calcGo tabIndexMap (expectedStart pre) l = annotateFrom tabIndexMap pre l := by
  induction l generalizing pre with
  | nil => rfl
  | cons s rest ih =>
    by_cases h0 : s.tabIds.length = 0
    · have hstep : expectedStart (pre ++ [s]) = expectedStart pre := by
        rw [expectedStart_append_one, h0]
        omega
      simp only [calcGo, annotateFrom, if_pos h0]
      rw [← hstep, ih (pre ++ [s])]

    · have hstep : expectedStart (pre ++ [s]) = expectedStart pre + s.tabIds.length :=
        expectedStart_append_one pre s
      simp only [calcGo, annotateFrom, if_neg h0]
      rw [← hstep, ih (pre ++ [s])]

/-- **C5 (amended).** `calculateRepositionNeeds` returns the states sorted by
display name (stable sort under `domLe`, i.e. `localeCompare ≤ 0`, a
permutation of the input), annotated per `annotateFrom`: a state with at
least one member is flagged `needsReposition` exactly when the minimum
current index among its resolvable members (or the expected index when none
resolve) differs from the expected running start index — the sum of the
member counts of the preceding sorted states; a state with no members is
returned unchanged, keeping its input flag. -/
theorem calculateRepositionNeeds_characterization (groupStates : List GroupState)
    (tabIndexMap : Nat → Option Nat) :
    calculateRepositionNeeds groupStates tabIndexMap
        = annotateFrom tabIndexMap [] (sortByDomain groupStates) ∧
      List.Sorted domLe (sortByDomain groupStates) ∧
      (sortByDomain groupStates).Perm groupStates := by
  refine ⟨?_, List.sorted_insertionSort domLe groupStates,
    List.perm_insertionSort domLe groupStates⟩
  have h0 : expectedStart [] = 0 := rfl
  unfold calculateRepositionNeeds
  rw [← h0]
  exact calcGo_eq_annotateFrom tabIndexMap (sortByDomain groupStates) []

/-- C5 counterexample data: a member-less state arriving with the flag set. -/
def emptyFlaggedState : GroupState :=
  { domain := "a", tabIds := [], groupId := none, needsReposition := true }

/-- **C5, counterexample.** The claim says the flag is set *exactly when* the
minimum current index (or the expected index when no member resolves) differs
from the expected index; for the member-less state `emptyFlaggedState` that
criterion yields `false` (expected = expected), yet `calculateRepositionNeeds`
returns the state unchanged with its flag still `true` — the early return for
empty states preserves the input flag instead of recomputing it. -/
theorem calculateRepositionNeeds_keeps_empty_state_flag :
    calculateRepositionNeeds [emptyFlaggedState] (fun _ => none)
        = [emptyFlaggedState] ∧
      emptyFlaggedState.needsReposition = true ∧
      decide (minNat (emptyFlaggedState.tabIds.filterMap (fun _ => none)) 0 ≠ 0)
        = false := by
  refine ⟨by decide, rfl, by decide⟩

/-! ### `TabGroupingService.createGroupPlan`

```
createGroupPlan(groupStates) {
  const toUngroup = []; const toGroup = []; const toMove = [];
  groupStates.forEach((state) => {
    if (state.tabIds.length === 0) return;
    toUngroup.push(...state.tabIds);
  });
  let targetIndex = 0;
  groupStates.forEach((state) => {
    if (state.tabIds.length === 0) return;
    toMove.push({ tabIds: state.tabIds, index: targetIndex });
    if (state.tabIds.length >= 2) {
      toGroup.push({ tabIds: state.tabIds, displayName: state.domain });
    }
    targetIndex += state.tabIds.length;
  });
  return { toUngroup, toGroup, toMove };
}
``` -/

structure MoveOp where
  tabIds : List Nat
  index : Nat
deriving Repr, DecidableEq

structure GroupOp where
  tabIds : List Nat
  displayName : String
deriving Repr, DecidableEq

structure GroupPlan where
  toUngroup : List Nat
  toGroup : List GroupOp
  toMove : List MoveOp
deriving Repr, DecidableEq

/-- The second loop of `createGroupPlan`, accumulating the running target
index; returns (move instructions, group-creation instructions). -/
def planMovesGroups (targetIndex : Nat) :
    List GroupState → List MoveOp × List GroupOp
  | [] => ([], [])
  | s :: rest =>
    if s.tabIds.length = 0 then planMovesGroups targetIndex rest
    else
      let (ms, gs) := planMovesGroups (targetIndex + s.tabIds.length) rest
      (⟨s.tabIds, targetIndex⟩ :: ms,
       if 2 ≤ s.tabIds.length then ⟨s.tabIds, s.domain⟩ :: gs else gs)

/-- `createGroupPlan(groupStates)`. -/
def createGroupPlan (groupStates : List GroupState) : GroupPlan :=
  let toUngroup :=
    (groupStates.filter (fun s => !s.tabIds.isEmpty)).flatMap (fun s => s.tabIds)
  let mg := planMovesGroups 0 groupStates
  { toUngroup := toUngroup, toGroup := mg.2, toMove := mg.1 }

/-- Specification-side move list, phrased (as the claim is) with each
non-empty state's target index given as the sum of the member counts of all
preceding states. -/
def movesSpecFrom (pre : List GroupState) : List GroupState → List MoveOp
  | [] => []
  | s :: rest =>
    if s.tabIds.length = 0 then movesSpecFrom (pre ++ [s]) rest
    else ⟨s.tabIds, expectedStart pre⟩ :: movesSpecFrom (pre ++ [s]) rest

theorem planMovesGroups_eq_spec (l : List GroupState) (pre : List GroupState) :
    (planMovesGroups (expectedStart pre) l).1 = movesSpecFrom pre l ∧
      (planMovesGroups (expectedStart pre) l).2
        = l.filterMap (fun s =>
            if 2 ≤ s.tabIds.length then some (GroupOp.mk s.tabIds s.domain)
            else none) := by
  induction l generalizing pre with
  | nil => exact ⟨rfl, rfl⟩
  | cons s rest ih =>
    by_cases h0 : s.tabIds.length = 0
    · have hstep : expectedStart (pre ++ [s]) = expectedStart pre := by
        rw [expectedStart_append_one, h0]
        omega
      have h := ih (pre ++ [s])
      rw [hstep] at h
      have hnotbig : ¬ 2 ≤ s.tabIds.length := by omega
      simp only [planMovesGroups, movesSpecFrom, if_pos h0, List.filterMap,
        if_neg hnotbig]
      exact h
    · have hstep : expectedStart (pre ++ [s]) = expectedStart pre + s.tabIds.length :=
        expectedStart_append_one pre s
      have h := ih (pre ++ [s])
      rw [hstep] at h
      by_cases h2 : 2 ≤ s.tabIds.length
      · simp only [planMovesGroups, movesSpecFrom, if_neg h0, if_pos h2,
          List.filterMap]
        exact ⟨by rw [h.1], by rw [h.2]⟩
      · simp only [planMovesGroups, movesSpecFrom, if_neg h0, if_neg h2,
          List.filterMap]
        exact ⟨by rw [h.1], by rw [h.2]⟩

theorem filter_nonempty_flatMap (l : List GroupState) :
    (l.filter (fun s => !s.tabIds.isEmpty)).flatMap (fun s => s.tabIds)
      = l.flatMap (fun s => s.tabIds) := by
  induction l with
  | nil => rfl
  | cons s rest ih =>
    rw [List.filter_cons]
    by_cases h0 : s.tabIds.isEmpty
    · have hnil : s.tabIds = [] := by
        cases hx : s.tabIds with
        | nil => rfl
        | cons a l => rw [hx] at h0; cases h0
      have hcond : (!s.tabIds.isEmpty) = false := by rw [h0]; rfl
      rw [hcond, if_neg (by simp), List.flatMap_cons, hnil, List.nil_append]
      exact ih
    · have h0' : s.tabIds.isEmpty = false := by
        cases hb : s.tabIds.isEmpty
        · rfl
        · exact absurd hb h0
      have hcond : (!s.tabIds.isEmpty) = true := by rw [h0']; rfl
      rw [hcond, if_pos rfl, List.flatMap_cons, List.flatMap_cons, ih]

/-- **C6 (confirmed).** `createGroupPlan` emits: one ungroup instruction
holding every member tab id across all (equivalently, all non-empty) states;
one move instruction per non-empty state, at the accumulated sum of the member
counts of the preceding states; and a group-creation instruction for a state
if and only if the state has at least 2 members. -/
theorem createGroupPlan_characterization (groupStates : List GroupState) :
    (createGroupPlan groupStates).toUngroup
        = groupStates.flatMap (fun s => s.tabIds) ∧
      (createGroupPlan groupStates).toMove = movesSpecFrom [] groupStates ∧
      (createGroupPlan groupStates).toGroup
        = groupStates.filterMap (fun s =>
            if 2 ≤ s.tabIds.length then some (GroupOp.mk s.tabIds s.domain)
            else none) := by
  have hms := planMovesGroups_eq_spec groupStates []
  have h0 : expectedStart [] = 0 := rfl
  rw [h0] at hms
  exact ⟨filter_nonempty_flatMap groupStates, hms.1, hms.2⟩

/-! ### `ChromeTabAdapter.executeGroupPlan` and its action trace

All interaction with the external tab API is recorded as a trace of `ChromeCall`s; the
environment `callOk` decides whether each issued call (after its internal
bounded retry) succeeds. Sleeps (`RATE_LIMIT_DELAY` pacing) carry no state and
are not recorded. -/

inductive ChromeCall where
  | query
  | captureState
  | remove (ids : List Nat)
  | ungroup (ids : List Nat)
  | move (ids : List Nat) (index : Nat)
  | moveToWindow (ids : List Nat) (windowId : Nat)
  | groupCreate (ids : List Nat) (title : String)
  | groupNew (ids : List Nat)
  | groupAdd (groupId : Int) (ids : List Nat)
  | updateGroup (groupId : Int) (title : String)
  | rollback
deriving Repr, DecidableEq

/-- `MAX_BATCH_SIZE` of `ChromeTabAdapter`. -/
def MAX_BATCH_SIZE : Nat := 100

/-- `batchArray(array, batchSize)`: fixed-size chunks in order. -/
def batchArray : List α → Nat → List (List α)
  | [], _ => []
  | x :: xs, n => (x :: xs.take (n - 1)) :: batchArray (xs.drop (n - 1)) n
termination_by l _ => l.length
decreasing_by
  simp only [List.length_drop, List.length_cons]
  omega

/-- One sequential phase of `executeGroupPlan`: issue each call in order;
on the first failure stop (the failed call was still issued). -/
def runPhase (callOk : ChromeCall → Bool) : List ChromeCall → List ChromeCall × Bool
  | [] => ([], true)
  | a :: rest =>
    if callOk a then
      let r := runPhase callOk rest
      (a :: r.1, r.2)
    else ([a], false)

/-- The batched ungroup calls of the plan (`if (plan.toUngroup.length > 0)`
guards the whole batching loop). -/
def ungroupBatchActions (plan : GroupPlan) : List ChromeCall :=
  if plan.toUngroup.length = 0 then []
  else (batchArray plan.toUngroup MAX_BATCH_SIZE).map ChromeCall.ungroup

/-- The sequential move calls of the plan, in plan order. -/
def moveActions (plan : GroupPlan) : List ChromeCall :=
  plan.toMove.map (fun m => ChromeCall.move m.tabIds m.index)

/-- The group-creation calls of the plan (each retried unit creates the group
and then labels it). -/
def groupCreateActions (plan : GroupPlan) : List ChromeCall :=
  plan.toGroup.map (fun g => ChromeCall.groupCreate g.tabIds g.displayName)

/-- `executeGroupPlan(plan)`: capture a snapshot, then run the three phases
strictly in order — ungroup batches, moves, group creations; on any failed
step roll back and return the failure, executing none of the remaining
steps. -/
def executeGroupPlan (plan : GroupPlan) (callOk : ChromeCall → Bool) :
    List ChromeCall × Bool :=
  match runPhase callOk (ungroupBatchActions plan) with
  | (t1, false) => (ChromeCall.captureState :: (t1 ++ [ChromeCall.rollback]), false)
  | (t1, true) =>
    match runPhase callOk (moveActions plan) with
    | (t2, false) =>
      (ChromeCall.captureState :: (t1 ++ t2 ++ [ChromeCall.rollback]), false)
    | (t2, true) =>
      match runPhase callOk (groupCreateActions plan) with
      | (t3, false) =>
        (ChromeCall.captureState :: (t1 ++ t2 ++ t3 ++ [ChromeCall.rollback]), false)
      | (t3, true) => (ChromeCall.captureState :: (t1 ++ t2 ++ t3), true)

/-- The full planned call sequence, in the mandated order: ungroup batches,
then moves (in plan order), then group creations. -/
def plannedActions (plan : GroupPlan) : List ChromeCall :=
  ungroupBatchActions plan ++ moveActions plan ++ groupCreateActions plan

/-- Specification-side description of `executeGroupPlan`, phrased as the claim
is: the snapshot is captured first; if every planned call succeeds, exactly
the planned calls run in order and the result is success; otherwise the trace
is the successful prefix, the first failing call, then a rollback — and the
failure is returned to the caller (no remaining step runs, no re-execution of
the plan). -/
def execSpec (plan : GroupPlan) (callOk : ChromeCall → Bool) : List ChromeCall × Bool :=
  let acts := plannedActions plan
  if acts.all callOk then (ChromeCall.captureState :: acts, true)
  else
    (ChromeCall.captureState ::
      (acts.takeWhile callOk ++ (acts.dropWhile callOk).take 1 ++ [ChromeCall.rollback]),
     false)

theorem runPhase_spec (callOk : ChromeCall → Bool) (l : List ChromeCall) :
    runPhase callOk l =
      if l.all callOk then (l, true)
      else (l.takeWhile callOk ++ (l.dropWhile callOk).take 1, false) := by
  induction l with
  | nil => rfl
  | cons a rest ih =>
    by_cases ha : callOk a = true
    · by_cases hrest : rest.all callOk = true
      · have hall : (a :: rest).all callOk = true := by
          rw [List.all_cons, ha, hrest]; rfl
        simp [runPhase, ha, ih, hrest, hall]
      · have hall : ¬ ((a :: rest).all callOk = true) := by
          rw [List.all_cons, ha]
          simpa using hrest
        simp [runPhase, ha, ih, hrest, hall, List.takeWhile_cons, List.dropWhile_cons]
    · have hall : ¬ ((a :: rest).all callOk = true) := by
        rw [List.all_cons]
        simp [ha]
      simp [runPhase, ha, hall, List.takeWhile_cons, List.dropWhile_cons]

theorem takeWhile_append_all {α : Type} {p : α → Bool} (l1 l2 : List α)
    (h : l1.all p = true) : (l1 ++ l2).takeWhile p = l1 ++ l2.takeWhile p := by
  induction l1 with
  | nil => rfl
  | cons a l ih =>
    rw [List.all_cons, Bool.and_eq_true] at h
    simp [List.takeWhile_cons, h.1, ih h.2]

theorem dropWhile_append_all {α : Type} {p : α → Bool} (l1 l2 : List α)
    (h : l1.all p = true) : (l1 ++ l2).dropWhile p = l2.dropWhile p := by
  induction l1 with
  | nil => rfl
  | cons a l ih =>
    rw [List.all_cons, Bool.and_eq_true] at h
    simp [List.dropWhile_cons, h.1, ih h.2]

theorem takeWhile_append_not {α : Type} {p : α → Bool} (l1 l2 : List α)
    (h : l1.all p = false) : (l1 ++ l2).takeWhile p = l1.takeWhile p := by
  induction l1 with
  | nil => cases h
  | cons a l ih =>
    rw [List.all_cons] at h
    by_cases ha : p a = true
    · rw [ha, Bool.true_and] at h
      simp [List.takeWhile_cons, ha, ih h]
    · have ha' : p a = false := by
        cases hb : p a
        · rfl
        · exact absurd hb ha
      simp [List.takeWhile_cons, ha']

theorem dropWhile_append_not {α : Type} {p : α → Bool} (l1 l2 : List α)
    (h : l1.all p = false) : (l1 ++ l2).dropWhile p = l1.dropWhile p ++ l2 := by
  induction l1 with
  | nil => cases h
  | cons a l ih =>
    rw [List.all_cons] at h
    by_cases ha : p a = true
    · rw [ha, Bool.true_and] at h
      simp [List.dropWhile_cons, ha, ih h]
    · have ha' : p a = false := by
        cases hb : p a
        · rfl
        · exact absurd hb ha
      simp [List.dropWhile_cons, ha']

theorem dropWhile_ne_nil_of_not_all {α : Type} {p : α → Bool} (l : List α)
    (h : l.all p = false) : l.dropWhile p ≠ [] := by
  induction l with
  | nil => cases h
  | cons a rest ih =>
    rw [List.all_cons] at h
    by_cases ha : p a = true
    · rw [ha, Bool.true_and] at h
      have hdw : (a :: rest).dropWhile p = rest.dropWhile p := by
        rw [List.dropWhile_cons, if_pos ha]
      rw [hdw]
      exact ih h
    · have ha2 : p a = false := by
        cases hb : p a
        · rfl
        · exact absurd hb ha
      have hdw : (a :: rest).dropWhile p = a :: rest := by
        rw [List.dropWhile_cons, if_neg ha]
      rw [hdw]
      exact List.cons_ne_nil a rest


theorem take_one_append_of_ne_nil {α : Type} (l1 l2 : List α) (h : l1 ≠ []) :
    (l1 ++ l2).take 1 = l1.take 1 := by
  cases l1 with
  | nil => exact absurd rfl h
  | cons a l => rfl

/-- **C4 (confirmed).** `executeGroupPlan` coincides with its specification
`execSpec`: the state snapshot is captured first; the plan's three instruction
lists run strictly in the order ungroup-batches, then moves (sequentially, in
plan order), then group creations; if every call succeeds the result is
success, and on the first failing step a best-effort rollback runs, none of
the remaining steps execute, and a failure result is returned to the caller —
the plan is not re-run. -/
theorem executeGroupPlan_eq_spec (plan : GroupPlan) (callOk : ChromeCall → Bool) :
    executeGroupPlan plan callOk = execSpec plan callOk := by
  have hrp := runPhase_spec callOk
  by_cases hu : (ungroupBatchActions plan).all callOk = true
  · by_cases hm : (moveActions plan).all callOk = true
    · by_cases hg : (groupCreateActions plan).all callOk = true
      · have hall : (plannedActions plan).all callOk = true := by
          unfold plannedActions
          rw [List.all_append, List.all_append, hu, hm, hg]
          rfl
        have hlhs : executeGroupPlan plan callOk
            = (ChromeCall.captureState :: (ungroupBatchActions plan
                ++ moveActions plan ++ groupCreateActions plan), true) := by
          unfold executeGroupPlan
          rw [hrp, hrp, hrp, if_pos hu, if_pos hm, if_pos hg]
        rw [hlhs]
        unfold execSpec
        rw [if_pos hall]
        unfold plannedActions
        rfl
      · have hg2 : (groupCreateActions plan).all callOk = false := by
          cases hb : (groupCreateActions plan).all callOk
          · rfl
          · exact absurd hb hg
        have hall : ¬ ((plannedActions plan).all callOk = true) := by
          unfold plannedActions
          rw [List.all_append, List.all_append, hu, hm, hg2]
          exact Bool.false_ne_true
        have hlhs : executeGroupPlan plan callOk
            = (ChromeCall.captureState :: (ungroupBatchActions plan
                ++ moveActions plan
                ++ ((groupCreateActions plan).takeWhile callOk
                  ++ ((groupCreateActions plan).dropWhile callOk).take 1)
                ++ [ChromeCall.rollback]), false) := by
          unfold executeGroupPlan
          rw [hrp, hrp, hrp, if_pos hu, if_pos hm, if_neg hg]
        have htake : (plannedActions plan).takeWhile callOk
            = ungroupBatchActions plan ++ moveActions plan
              ++ (groupCreateActions plan).takeWhile callOk := by
          unfold plannedActions
          rw [List.append_assoc, takeWhile_append_all _ _ hu,
            takeWhile_append_all _ _ hm, List.append_assoc]
        have hdrop : (plannedActions plan).dropWhile callOk
            = (groupCreateActions plan).dropWhile callOk := by
          unfold plannedActions
          rw [List.append_assoc, dropWhile_append_all _ _ hu,
            dropWhile_append_all _ _ hm]
        rw [hlhs]
        unfold execSpec
        rw [if_neg hall, htake, hdrop]
        simp [List.append_assoc]
    · have hm2 : (moveActions plan).all callOk = false := by
        cases hb : (moveActions plan).all callOk
        · rfl
        · exact absurd hb hm
      have hall : ¬ ((plannedActions plan).all callOk = true) := by
        unfold plannedActions
        rw [List.all_append, List.all_append, hu, hm2]
        simp
      have hlhs : executeGroupPlan plan callOk
          = (ChromeCall.captureState :: (ungroupBatchActions plan
              ++ ((moveActions plan).takeWhile callOk
                ++ ((moveActions plan).dropWhile callOk).take 1)
              ++ [ChromeCall.rollback]), false) := by
        unfold executeGroupPlan
        rw [hrp, hrp, if_pos hu, if_neg hm]
      have htake : (plannedActions plan).takeWhile callOk
          = ungroupBatchActions plan ++ (moveActions plan).takeWhile callOk := by
        unfold plannedActions
        rw [List.append_assoc, takeWhile_append_all _ _ hu,
          takeWhile_append_not _ _ hm2]
      have hdropm := dropWhile_ne_nil_of_not_all (moveActions plan) hm2
      have hdrop : ((plannedActions plan).dropWhile callOk).take 1
          = ((moveActions plan).dropWhile callOk).take 1 := by
        unfold plannedActions
        rw [List.append_assoc, dropWhile_append_all _ _ hu,
          dropWhile_append_not _ _ hm2]
        exact take_one_append_of_ne_nil _ _ hdropm
      rw [hlhs]
      unfold execSpec
      rw [if_neg hall, htake, hdrop]
      simp [List.append_assoc]
  · have hu2 : (ungroupBatchActions plan).all callOk = false := by
      cases hb : (ungroupBatchActions plan).all callOk
      · rfl
      · exact absurd hb hu
    have hall : ¬ ((plannedActions plan).all callOk = true) := by
      unfold plannedActions
      rw [List.all_append, List.all_append, hu2]
      simp
    have hlhs : executeGroupPlan plan callOk
        = (ChromeCall.captureState :: (((ungroupBatchActions plan).takeWhile callOk
            ++ ((ungroupBatchActions plan).dropWhile callOk).take 1)
            ++ [ChromeCall.rollback]), false) := by
      unfold executeGroupPlan
      rw [hrp, if_neg hu]
    have htake : (plannedActions plan).takeWhile callOk
        = (ungroupBatchActions plan).takeWhile callOk := by
      unfold plannedActions
      rw [List.append_assoc, takeWhile_append_not _ _ hu2]
    have hdropu := dropWhile_ne_nil_of_not_all (ungroupBatchActions plan) hu2
    have hdrop : ((plannedActions plan).dropWhile callOk).take 1
        = ((ungroupBatchActions plan).dropWhile callOk).take 1 := by
      unfold plannedActions
      rw [List.append_assoc, dropWhile_append_not _ _ hu2]
      exact take_one_append_of_ne_nil _ _ hdropu
    rw [hlhs]
    unfold execSpec
    rw [if_neg hall, htake, hdrop]

/-! ### `TabGroupingController.processGrouping`

The grouping pass: fetch the live tab cache (scoped to a window when the
truthy `windowId` argument is given), build `GroupState`s, apply each one
(the `Promise.allSettled` fan-out is modelled sequentially in state order —
the per-state traces are independent), run the orphaned-singles cleanup,
recompute reposition needs against the live indices, and execute a
`GroupPlan` only when at least one state needs repositioning. The in-place
`state.groupId` assignments inside `applyGroupState` are not modelled: no
downstream consumer (`flatMap tabIds`, `calculateRepositionNeeds`,
`createGroupPlan`) reads `groupId`. -/

/-- The environment of one grouping pass: the (already filtered) tab snapshot
returned by `getAllNonAppTabs`, the outcome of each mutating call after its
bounded retry, and the group ids the browser hands back on creation. -/
structure GEnv where
  currentTabs : List Tab
  callOk : ChromeCall → Bool
  newGid : List Nat → Int

/-- `new Map(tabs.map(t => [t.id, t]))`: later entries overwrite earlier ones,
so lookup finds the last tab with the given id. -/
def cacheLookup (tabs : List Tab) : Nat → Option Tab :=
  fun i => tabs.reverse.find? (fun t => t.id = some i)

/-- `new Map(tabs.map(t => [t.id, t.index]))`. -/
def idxLookup (tabs : List Tab) : Nat → Option Nat :=
  fun i => (tabs.reverse.find? (fun t => t.id = some i)).map (fun t => t.index)

/-- `windowId ? allCurrentTabs.filter(t => t.windowId === windowId)
: allCurrentTabs` (note the truthiness test on `windowId`). -/
def relevantTabsFor (env : GEnv) (windowId : Option Nat) : List Tab :=
  match windowId with
  | some w =>
    if w = 0 then env.currentTabs
    else env.currentTabs.filter (fun t => t.windowId = some w)
  | none => env.currentTabs

/-- The `wrongGroup` filter of `applyGroupState`: members whose fresh cached
tab sits in a different non-empty group. -/
def wrongGroupOf (cache : Nat → Option Tab) (g : Int) (ids : List Nat) :
    List Nat :=
  ids.filter (fun i =>
    match cache i with
    | some t => decide (t.groupId ≠ some g) && isGrouped t
    | none => false)

/-- The calls `applyGroupState` issues when the state has a prior group id
(`some g`) or none, for a state with ≥2 members. -/
def applyGroupStateWithGid (env : GEnv) (cache : Nat → Option Tab)
    (displayName : String) (ids : List Nat) : Option Int → List ChromeCall
  | none =>
    if env.callOk (ChromeCall.groupNew ids) then
      [ChromeCall.groupNew ids,
       ChromeCall.updateGroup (env.newGid ids) displayName]
    else [ChromeCall.groupNew ids]
  | some g =>
    (if (wrongGroupOf cache g ids).length = 0 then []
     else [ChromeCall.ungroup (wrongGroupOf cache g ids)]) ++
    (if env.callOk (ChromeCall.groupAdd g ids) then
      [ChromeCall.groupAdd g ids, ChromeCall.updateGroup g displayName]
    else if env.callOk (ChromeCall.groupNew ids) then
      [ChromeCall.groupAdd g ids, ChromeCall.groupNew ids,
       ChromeCall.updateGroup (env.newGid ids) displayName]
    else [ChromeCall.groupAdd g ids, ChromeCall.groupNew ids])

/-- `ChromeTabAdapter.applyGroupState(state, tabCache)`, as its call trace:
fewer than 2 members → ungroup them if currently tracked as grouped; no prior
group → create and label; prior group → strip members sitting in a different
group, try adding to the prior group, falling back to creating a new group,
and relabel. -/
def applyGroupState (env : GEnv) (cache : Nat → Option Tab) (s : GroupState) :
    List ChromeCall :=
  if s.tabIds.length < 2 then
    if s.groupId ≠ none ∧ 0 < s.tabIds.length then [ChromeCall.ungroup s.tabIds]
    else []
  else applyGroupStateWithGid env cache s.domain s.tabIds s.groupId

/-- `ChromeTabAdapter.ungroupSingleTabs`: batched ungroup calls for the
collected singles (`if (singles.length > 0)` guards the loop). -/
def ungroupSingleTabs (domainMap : List DomainMapEntry)
    (allGroupedTabIds : List Nat) : List ChromeCall :=
  if (singlesToUngroup domainMap allGroupedTabIds).length = 0 then []
  else (batchArray (singlesToUngroup domainMap allGroupedTabIds)
    MAX_BATCH_SIZE).map ChromeCall.ungroup

/-- The `GroupState`s the pass builds from the (window-scoped) live cache. -/
def groupStatesFor (env : GEnv) (domainMap : List DomainMapEntry)
    (windowId : Option Nat) : List GroupState :=
  buildGroupStates domainMap (cacheLookup (relevantTabsFor env windowId))

/-- The states with recomputed reposition flags. -/
def annotatedStates (env : GEnv) (domainMap : List DomainMapEntry)
    (windowId : Option Nat) : List GroupState :=
  calculateRepositionNeeds (groupStatesFor env domainMap windowId)
    (idxLookup (relevantTabsFor env windowId))

/-- Everything the pass does before deciding about a plan: the tab fetch, the
per-state `applyGroupState` calls, and the singles cleanup. -/
def prePlanTrace (env : GEnv) (domainMap : List DomainMapEntry)
    (windowId : Option Nat) : List ChromeCall :=
  ChromeCall.query ::
    ((groupStatesFor env domainMap windowId).flatMap
        (applyGroupState env (cacheLookup (relevantTabsFor env windowId)))
      ++ ungroupSingleTabs domainMap
          ((groupStatesFor env domainMap windowId).flatMap (fun s => s.tabIds)))

/-- `processGrouping(domainMap, windowId?)`: the fast path returns success
without building a plan when no state needs repositioning
(`needsReposition.filter(...).length === 0`); otherwise the plan built from
the annotated states is executed and its result returned. -/
def processGrouping (env : GEnv) (domainMap : List DomainMapEntry)
    (windowId : Option Nat) : List ChromeCall × Bool :=
  if (annotatedStates env domainMap windowId).all (fun s => !s.needsReposition) then
    (prePlanTrace env domainMap windowId, true)
  else
    let r := executeGroupPlan
      (createGroupPlan (annotatedStates env domainMap windowId)) env.callOk
    (prePlanTrace env domainMap windowId ++ r.1, r.2)

/-- The calls the idempotence claim forbids on a steady second pass: ungroup,
move, and group-creation calls. -/
def isForbiddenCall : ChromeCall → Bool
  | .ungroup _ => true
  | .move _ _ => true
  | .moveToWindow _ _ => true
  | .groupCreate _ _ => true
  | .groupNew _ => true
  | _ => false

/-- Whether each state's members occupy exactly the block of tab-strip
positions starting at its expected running index — the layout the previous
pass's plan established. -/
def blocksAligned (tabIndexMap : Nat → Option Nat) (expected : Nat) :
    List GroupState → Bool
  | [] => true
  | s :: rest =>
    decide ((s.tabIds.filterMap tabIndexMap).Perm
      (List.range' expected s.tabIds.length))
    && blocksAligned tabIndexMap (expected + s.tabIds.length) rest

/-- "No intervening tab changes" after a completed pass, as the live state
shows it: every built state still has its prior group id with every member
cached inside that very group (and a sane ≥2-member id list), the add-to-group
relabel calls succeed, no orphaned single is left, and every state's members
sit exactly in their target block of positions. -/
def steadyState (env : GEnv) (domainMap : List DomainMapEntry)
    (windowId : Option Nat) : Bool :=
  (groupStatesFor env domainMap windowId).all (fun s =>
    (match s.groupId with
     | some g =>
       s.tabIds.all (fun i =>
         match cacheLookup (relevantTabsFor env windowId) i with
         | some t => decide (t.groupId = some g)
         | none => false)
       && env.callOk (ChromeCall.groupAdd g s.tabIds)
     | none => false)
    && decide (2 ≤ s.tabIds.length))
  && decide (singlesToUngroup domainMap
      ((groupStatesFor env domainMap windowId).flatMap (fun s => s.tabIds)) = [])
  && blocksAligned (idxLookup (relevantTabsFor env windowId)) 0
      (sortByDomain (groupStatesFor env domainMap windowId))

theorem mem_range'_one {s n m : Nat} : m ∈ List.range' s n ↔ s ≤ m ∧ m < s + n := by
  rw [List.mem_range']
  constructor
  · rintro ⟨i, hi, rfl⟩
    omega
  · intro h
    exact ⟨m - s, by omega, by omega⟩

theorem minNat_eq_of_mem_of_le (l : List Nat) (d e : Nat) (he : e ∈ l)
    (hle : ∀ x ∈ l, e ≤ x) : minNat l d = e := by
  unfold minNat
  have h : l.min? = some e := List.min?_eq_some_iff'.2 ⟨he, hle⟩
  rw [h]

theorem calcGo_flags_of_aligned (tabIndexMap : Nat → Option Nat)
    (l : List GroupState) (expected : Nat)
    (hflags : ∀ s ∈ l, s.needsReposition = false)
    (halign : blocksAligned tabIndexMap expected l = true) :
    (calcGo tabIndexMap expected l).all (fun s => !s.needsReposition) = true := by
  induction l generalizing expected with
  | nil => rfl
  | cons s rest ih =>
    rw [blocksAligned, Bool.and_eq_true] at halign
    obtain ⟨hperm, hrest⟩ := halign
    rw [decide_eq_true_iff] at hperm
    by_cases h0 : s.tabIds.length = 0
    · have hrest0 : blocksAligned tabIndexMap expected rest = true := by
        rw [← Nat.add_zero expected, ← h0]
        exact hrest
      have hs : s.needsReposition = false := hflags s (List.mem_cons_self s rest)
      simp only [calcGo, if_pos h0, List.all_cons, hs, Bool.not_false,
        Bool.true_and]
      exact ih expected (fun x hx => hflags x (List.mem_cons_of_mem s hx)) hrest0
    · have hmemE : expected ∈ s.tabIds.filterMap tabIndexMap := by
        apply hperm.mem_iff.2
        rw [mem_range'_one]
        omega
      have hlb : ∀ x ∈ s.tabIds.filterMap tabIndexMap, expected ≤ x := by
        intro x hx
        have := hperm.mem_iff.1 hx
        rw [mem_range'_one] at this
        omega
      have hmin : minNat (s.tabIds.filterMap tabIndexMap) expected = expected :=
        minNat_eq_of_mem_of_le _ _ _ hmemE hlb
      have hhead : (decide (minNat (s.tabIds.filterMap tabIndexMap) expected
          ≠ expected) : Bool) = false := by
        rw [hmin]
        simp
      simp only [calcGo, if_neg h0, List.all_cons, hhead, Bool.not_false,
        Bool.true_and]
      exact ih (expected + s.tabIds.length)
        (fun x hx => hflags x (List.mem_cons_of_mem s hx)) hrest

theorem buildGroupStates_flags (domainMap : List DomainMapEntry)
    (tabCache : Nat → Option Tab) :
    ∀ s ∈ buildGroupStates domainMap tabCache, s.needsReposition = false := by
  intro s hs
  rcases List.mem_filterMap.1 hs with ⟨e, _, hse⟩
  simp only [buildGroupStateEntry] at hse
  split_ifs at hse
  cases hse
  rfl

theorem applyGroupState_steady (env : GEnv) (cache : Nat → Option Tab)
    (s : GroupState) (g : Int)
    (hg : s.groupId = some g)
    (hlen : 2 ≤ s.tabIds.length)
    (hmem : ∀ i ∈ s.tabIds, ∀ t, cache i = some t → t.groupId = some g)
    (hok : env.callOk (ChromeCall.groupAdd g s.tabIds) = true) :
    applyGroupState env cache s
      = [ChromeCall.groupAdd g s.tabIds, ChromeCall.updateGroup g s.domain] := by
  unfold applyGroupState
  have hnot : ¬ s.tabIds.length < 2 := by omega
  rw [if_neg hnot, hg]
  have hwrong : wrongGroupOf cache g s.tabIds = [] := by
    rw [wrongGroupOf, List.filter_eq_nil_iff]
    intro i hi
    cases hc : cache i with
    | none => simp
    | some t =>
      have ht := hmem i hi t hc
      simp [ht]
  simp only [applyGroupStateWithGid, hwrong, List.length_nil, if_pos, hok,
    if_true, List.nil_append]

/-- **C8 (confirmed).** The grouping pass: (fast path) whenever the
recomputed reposition flags are all clear, `processGrouping` ends successfully
with exactly its pre-plan trace — no `GroupPlan` is built or executed, so no
plan-stage ungroup/move/group-creation call is issued; and (idempotence) on a
steady second pass with no intervening tab changes, every state's
`needsReposition` is computed `false`, the pass succeeds, and its whole trace
contains zero ungroup, move, or group-creation calls (the only mutating calls
left are the idempotent add-to-existing-group and relabel calls that
`applyGroupState` always re-issues). -/
theorem processGrouping_fast_path_and_idempotent (env : GEnv)
    (domainMap : List DomainMapEntry) (windowId : Option Nat) :
    ((annotatedStates env domainMap windowId).all (fun s => !s.needsReposition)
        = true →
      processGrouping env domainMap windowId
        = (prePlanTrace env domainMap windowId, true)) ∧
    (steadyState env domainMap windowId = true →
      (annotatedStates env domainMap windowId).all (fun s => !s.needsReposition)
          = true ∧
        processGrouping env domainMap windowId
          = (prePlanTrace env domainMap windowId, true) ∧
        (prePlanTrace env domainMap windowId).filter isForbiddenCall = []) := by
  constructor
  · intro hfast
    unfold processGrouping
    rw [if_pos hfast]
  · intro hsteady
    rw [steadyState, Bool.and_eq_true, Bool.and_eq_true] at hsteady
    obtain ⟨⟨hstates, hsingles⟩, halign⟩ := hsteady
    have hflagsSorted :
        ∀ s ∈ sortByDomain (groupStatesFor env domainMap windowId),
          s.needsReposition = false := by
      intro s hs
      exact buildGroupStates_flags domainMap _ s
        ((List.perm_insertionSort domLe _).mem_iff.1 hs)
    have hfast : (annotatedStates env domainMap windowId).all
        (fun s => !s.needsReposition) = true := by
      unfold annotatedStates calculateRepositionNeeds
      exact calcGo_flags_of_aligned _ _ 0 hflagsSorted halign
    refine ⟨hfast, ?_, ?_⟩
    · unfold processGrouping
      rw [if_pos hfast]
    · have happly : ∀ s ∈ groupStatesFor env domainMap windowId, ∃ g,
          applyGroupState env (cacheLookup (relevantTabsFor env windowId)) s
            = [ChromeCall.groupAdd g s.tabIds,
               ChromeCall.updateGroup g s.domain] := by
        intro s hs
        have h1 := (List.all_eq_true.1 hstates) s hs
        rw [Bool.and_eq_true] at h1
        obtain ⟨hmatch, hlen2⟩ := h1
        rw [decide_eq_true_iff] at hlen2
        cases hgid : s.groupId with
        | none => rw [hgid] at hmatch; cases hmatch
        | some g =>
          rw [hgid] at hmatch
          rw [Bool.and_eq_true] at hmatch
          obtain ⟨hmemall, hok⟩ := hmatch
          refine ⟨g, applyGroupState_steady env _ s g hgid hlen2 ?_ hok⟩
          intro i hi t hc
          have h2 := (List.all_eq_true.1 hmemall) i hi
          rw [hc] at h2
          rw [decide_eq_true_iff] at h2
          exact h2
      have hsing : ungroupSingleTabs domainMap
          ((groupStatesFor env domainMap windowId).flatMap (fun s => s.tabIds))
            = [] := by
        rw [decide_eq_true_iff] at hsingles
        unfold ungroupSingleTabs
        rw [hsingles]
        rfl
      unfold prePlanTrace
      rw [hsing, List.append_nil]
      rw [List.filter_eq_nil_iff]
      intro a ha
      rcases List.mem_cons.1 ha with rfl | ha
      · intro hc; cases hc
      · rcases List.mem_flatMap.1 ha with ⟨s, hs, has⟩
        rcases happly s hs with ⟨g, heq⟩
        rw [heq] at has
        rcases List.mem_cons.1 has with rfl | has
        · intro hc; cases hc
        · rcases List.mem_cons.1 has with rfl | has
          · intro hc; cases hc
          · cases has

/-- C8 witness data: two `ex.com` tabs already grouped as group 9 at the
front of the tab strip — the state a completed first pass leaves behind. -/
def steadyTab1 : Tab :=
  { id := some 1, url := some "https://ex.com/a", groupId := some 9,
    index := 0, windowId := some 1 }

def steadyTab2 : Tab :=
  { id := some 2, url := some "https://ex.com/b", groupId := some 9,
    index := 1, windowId := some 1 }

def steadyEntry : DomainMapEntry :=
  { tabs := [steadyTab1, steadyTab2], displayName := "ex.com",
    domains := ["ex.com"] }

def steadyEnv : GEnv :=
  { currentTabs := [steadyTab1, steadyTab2], callOk := fun _ => true,
    newGid := fun _ => 11 }

/-- Witness for C8: the second immediate pass on the steady snapshot succeeds
with no plan execution and zero ungroup/move/group-creation calls. -/
theorem processGrouping_fast_path_and_idempotent_witness :
    processGrouping steadyEnv [steadyEntry] none
        = (prePlanTrace steadyEnv [steadyEntry] none, true) ∧
      (prePlanTrace steadyEnv [steadyEntry] none).filter isForbiddenCall = [] := by
  have h := processGrouping_fast_path_and_idempotent steadyEnv [steadyEntry] none
  have hs : steadyState steadyEnv [steadyEntry] none = true := by decide
  have h2 := h.2 hs
  exact ⟨h2.2.1, h2.2.2⟩

/-! ### `TabGroupingController.execute`

The controller run: single-flight guard on `isProcessing`, configuration read
(store state, rule validation via `validateRule`, rules-by-domain map), tab
fetch and skip-filtering, optional window consolidation, deduplication,
auto-delete, then the grouping pass(es); a `finally` clears the flag on every
path. Throw sites are modelled faithfully: the store read
(`storeThrows`), `rules.filter(validateRule)` (via the `validateRule`
`TypeError`s), `curr.domain.length` on an accepted domain-less rule, and the
raw (unretried) window queries of `mergeToActiveWindow` (`windowsThrow`).
The external snapshot is static within a run: each `getRelevantTabs` sees the
same `currentTabs`. -/

structure XEnv where
  genv : GEnv
  storeThrows : Bool
  rules : List JSVal
  hasGrouping : Bool
  byWindow : Bool
  windowsThrow : Bool
  windowsCount : Nat
  activeWindowId : Option Nat

/-- `acc[key] = value` on a JavaScript object used as a map: overwrite in
place, or append a new key in insertion order. -/
def insertAssoc (m : List (String × JSVal)) (k : String) (v : JSVal) :
    List (String × JSVal) :=
  if (m.find? (fun p => p.1 = k)).isSome
  then m.map (fun p => if p.1 = k then (k, v) else p)
  else m ++ [(k, v)]

/-- `rulesByDomain[domain]`. -/
def lookupRule (m : List (String × JSVal)) (d : String) : Option JSVal :=
  (m.find? (fun p => p.1 = d)).map (fun p => p.2)

/-- One step of `validRules.reduce(...)`: skip rules with an empty string
domain; reading `.length` of a nullish domain throws; a non-string,
non-nullish domain is coerced to a string key. -/
def jsDomainKeyStep (acc : List (String × JSVal)) (rule : JSVal) :
    Except String (List (String × JSVal)) := do
  let d ← jsField rule "domain"
  match d with
  | .str s => if s.length = 0 then pure acc else pure (insertAssoc acc s rule)
  | .null => throw "TypeError"
  | .undefined => throw "TypeError"
  | other => pure (insertAssoc acc (jsToStr other) rule)

/-- The `rulesByDomain` reduce over the validated rules. -/
def rulesByDomainOf (rules : List JSVal) :
    Except String (List (String × JSVal)) :=
  rules.foldlM jsDomainKeyStep []

/-- `Array.prototype.filter` with a possibly-throwing callback. -/
def filterExcept (p : α → Except String Bool) :
    List α → Except String (List α)
  | [] => .ok []
  | x :: xs => do
    let b ← p x
    let rest ← filterExcept p xs
    if b then return x :: rest else return rest

/-- The skip-rule predicate of `getRelevantTabs`:
`rule?.skipProcess == null || rule?.skipProcess === false`. -/
def skipFilter (rulesByDomain : List (String × JSVal)) (t : Tab) :
    Except String Bool := do
  match lookupRule rulesByDomain (getDomain t.url) with
  | none => pure true
  | some r => do
    let sp ← jsField r "skipProcess"
    pure (jsLooseNull sp
      || (match sp with | .bool false => true | _ => false))

/-- `mergeToActiveWindow(tabs)`: no-op with at most one window or no usable
target window; otherwise move every tab not in the target window there, in
batches (the raw window queries may throw). -/
def mergeToActiveWindow (env : XEnv) (tabs : List Tab) :
    Except String (List ChromeCall) := do
  if env.windowsThrow then throw "Error"
  if env.windowsCount ≤ 1 then return []
  match env.activeWindowId with
  | none => return []
  | some w =>
    if w = 0 then return []
    else
      let tabsToMove := tabs.filter (fun t => decide (t.windowId ≠ some w))
      if tabsToMove.length = 0 then return []
      else
        return (batchArray (extractTabIds tabsToMove) MAX_BATCH_SIZE).map
          (fun b => ChromeCall.moveToWindow b w)

/-- `deduplicateAllTabs` as the adapter runs it: the batched removal calls
(failed batches are only warned about) and the returned survivors. -/
def deduplicateAllTabsTrace (tabs : List Tab) : List ChromeCall × List Tab :=
  ( if (deduplicateAllTabs tabs).2.length = 0 then []
    else (batchArray (deduplicateAllTabs tabs).2 MAX_BATCH_SIZE).map
      ChromeCall.remove,
   (deduplicateAllTabs tabs).1)

/-- The split of `applyAutoDeleteRules`: ids to close
(`rule?.autoDelete && tab.id`) and the remaining tabs. -/
def autoDeleteSplit (rulesByDomain : List (String × JSVal)) :
    List Tab → Except String (List Nat × List Tab)
  | [] => .ok ([], [])
  | t :: ts => do
    let flag ←
      match lookupRule rulesByDomain (getDomain t.url) with
      | none => pure false
      | some r => do
        let ad ← jsField r "autoDelete"
        pure (jsTruthy ad)
    let rest ← autoDeleteSplit rulesByDomain ts
    match truthyId t, flag with
    | some i, true => return (i :: rest.1, rest.2)
    | _, _ => return (rest.1, t :: rest.2)

/-- `applyAutoDeleteRules` as the adapter runs it: batched removals plus the
survivors. -/
def applyAutoDeleteRules (rulesByDomain : List (String × JSVal))
    (tabs : List Tab) : Except String (List ChromeCall × List Tab) := do
  let r ← autoDeleteSplit rulesByDomain tabs
  return ( if r.1.length = 0 then []
           else (batchArray r.1 MAX_BATCH_SIZE).map ChromeCall.remove,
          r.2)

/-- `getGroupKey(domain, rulesByDomain)`: `rule?.groupName || domain`. -/
def groupKeyOf (rulesByDomain : List (String × JSVal)) (domain : String) :
    Except String String :=
  match lookupRule rulesByDomain domain with
  | none => pure domain
  | some r => do
    let gn ← jsField r "groupName"
    pure (if jsTruthy gn then jsToStr gn else domain)

/-- Fold one tab into the domain map: append the tab to its group key's
entry, adding its domain to the entry's domain set (insertion-ordered). -/
def domainMapInsert (m : List (String × DomainMapEntry)) (key : String)
    (domain : String) (t : Tab) : List (String × DomainMapEntry) :=
  if (m.find? (fun p => p.1 = key)).isSome then
    m.map (fun p =>
      if p.1 = key then
        (p.1,
         { tabs := p.2.tabs ++ [t], displayName := p.2.displayName,
           domains :=
             if p.2.domains.contains domain then p.2.domains
             else p.2.domains ++ [domain] })
      else p)
  else m ++ [(key, { tabs := [t], displayName := key, domains := [domain] })]

/-- The `buildDomainMap` fold (a JavaScript `Map` in insertion order). -/
def buildDomainMapGo (rulesByDomain : List (String × JSVal)) :
    List Tab → List (String × DomainMapEntry)
      → Except String (List (String × DomainMapEntry))
  | [], m => .ok m
  | t :: ts, m => do
    let key ← groupKeyOf rulesByDomain (getDomain t.url)
    buildDomainMapGo rulesByDomain ts (domainMapInsert m key (getDomain t.url) t)

/-- `TabGroupingService.buildDomainMap(tabs, rulesByDomain)`. -/
def buildDomainMap (tabs : List Tab) (rulesByDomain : List (String × JSVal)) :
    Except String (List (String × DomainMapEntry)) :=
  buildDomainMapGo rulesByDomain tabs []

/-- `TabGroupingController.groupByWindow(tabs)`: partition by truthy window
id, first-seen window order. -/
def groupByWindowGo : List Tab → List (Nat × List Tab) → List (Nat × List Tab)
  | [], m => m
  | t :: ts, m =>
    match t.windowId with
    | some w =>
      if w = 0 then groupByWindowGo ts m
      else
        groupByWindowGo ts
          (if (m.find? (fun p => p.1 = w)).isSome
           then m.map (fun p => if p.1 = w then (p.1, p.2 ++ [t]) else p)
           else m ++ [(w, [t])])
    | none => groupByWindowGo ts m

/-- The body of `execute()` between the guard and the `finally`: the trace of
issued calls and, when a throw escaped to `execute`'s `catch`, the error. -/
def executeBody (env : XEnv) : List ChromeCall × Option String :=
  if env.storeThrows then ([], some "Error")
  else if !env.hasGrouping then ([], none)
  else
    match filterRulesJS env.rules with
    | .error e => ([], some e)
    | .ok validRules =>
      match rulesByDomainOf validRules with
      | .error e => ([], some e)
      | .ok rbd =>
        match filterExcept (skipFilter rbd) env.genv.currentTabs with
        | .error e => ([ChromeCall.query], some e)
        | .ok tabs1 =>
          let tr0 : List ChromeCall := [ChromeCall.query]
          match
            (if !env.byWindow then
              match mergeToActiveWindow env tabs1 with
              | .error e => .error (tr0, e)
              | .ok mtrace =>
                match filterExcept (skipFilter rbd) env.genv.currentTabs with
                | .error e => .error (tr0 ++ mtrace ++ [ChromeCall.query], e)
                | .ok tabs2 =>
                  .ok (tr0 ++ mtrace ++ [ChromeCall.query], tabs2)
            else (.ok (tr0, tabs1) :
              Except (List ChromeCall × String) (List ChromeCall × List Tab)))
          with
          | .error p => (p.1, some p.2)
          | .ok (tr1, tabs) =>
            let dd := deduplicateAllTabsTrace tabs
            match applyAutoDeleteRules rbd dd.2 with
            | .error e => (tr1 ++ dd.1, some e)
            | .ok ad =>
              let tr2 := tr1 ++ dd.1 ++ ad.1
              if env.byWindow then
                let wgroups := groupByWindowGo ad.2 []
                let traces := wgroups.map (fun p =>
                  match buildDomainMap p.2 rbd with
                  | .error _ => ([] : List ChromeCall)
                  | .ok dm =>
                    (processGrouping env.genv (dm.map (fun q => q.2))
                      (some p.1)).1)
                (tr2 ++ traces.flatten, none)
              else
                match buildDomainMap ad.2 rbd with
                | .error e => (tr2, some e)
                | .ok dm =>
                  (tr2 ++ (processGrouping env.genv (dm.map (fun q => q.2))
                    none).1, none)

/-- `TabGroupingController.execute()` as a step of the Idle/Running machine:
takes the current `isProcessing` flag, returns the flag after the run and the
trace of issued calls. The guard returns immediately (the running owner keeps
the flag); otherwise the body runs inside `try`/`catch` and the `finally`
clears the flag no matter whether the body completed or threw. -/
def execute (isProcessing : Bool) (env : XEnv) : Bool × List ChromeCall :=
  if isProcessing then (isProcessing, [])
  else (false, (executeBody env).1)

/-- **C7 (confirmed).** The controller is a two-state Idle/Running machine:
invoking `execute()` while a run is in progress returns immediately with an
empty call trace — no tab-fetch (`query`) call, no other side effect — and
leaves the flag with its owner; and for every environment — including every
throwing one (store read failure, `validateRule` `TypeError`s, window-query
failures) — a run started from Idle ends with the Running flag cleared, so no
error leaves the controller permanently blocked. -/
theorem execute_single_flight_and_flag_clearing (env : XEnv) :
    execute true env = (true, []) ∧ (execute false env).1 = false := by
  constructor
  · rfl
  · rfl
